import Mathlib

/-!
# Verification of the orgcryptx wallet ledger and contract resolver

Shallow embedding, in Lean 4, of the core logic of the repository:

* `src/main.py` — `Wallet.replay_transfers` (ledger replay with the
  non-negativity assertion), `TokenTransfer.__init__` (decimal/fee
  conversion), the `TransactionOrganizer` fetchers and the native-transfer
  classification step of `TransactionOrganizer.extract`;
* `src/ContractStorage.py` — `ContractStorage.get_contract` (cache),
  `_get_contract`, `guess_abi` (interface guessing),
  `_get_impl_contract_for_proxy` (proxy unwrap) and `get_fn_name`.

Python `Decimal` amounts are modelled as `ℚ` (exact arithmetic), Python
dicts as insertion-ordered association lists, `set`s of hashes as lists
used only through membership, and raised exceptions as `Except` errors.
External collaborators (web3 RPC, block explorers) are modelled as
explicit oracle records passed to the functions that consult them.
-/

/-! ## Python dict model

`Wallet.balances` is a `defaultdict(int)`: reading a missing key inserts
it with value `0`, writing `d[k] -= v` updates the first (unique)
occurrence in place, and fresh keys are appended at the end, preserving
insertion order exactly as a Python dict does. -/

/-- Value of key `k` in the dict, `0` when absent (`defaultdict(int)`). -/
def dictGet (d : List (String × ℚ)) (k : String) : ℚ :=
  match d with
  | [] => 0
  | (k', v) :: rest => if k' = k then v else dictGet rest k

/-- `d[k] += v` on a `defaultdict(int)`: update the first occurrence of
`k` in place, or append `(k, v)` when `k` is absent. -/
def dictAdd (d : List (String × ℚ)) (k : String) (v : ℚ) : List (String × ℚ) :=
  match d with
  | [] => [(k, v)]
  | (k', v') :: rest => if k' = k then (k, v' + v) :: rest else (k', v') :: dictAdd rest k v

/-- A read `d[k]` on a `defaultdict(int)` inserts `k` with value `0`
when absent (this happens in the `logging.debug` line 77 of `main.py`). -/
def dictTouch (d : List (String × ℚ)) (k : String) : List (String × ℚ) :=
  match d with
  | [] => [(k, 0)]
  | (k', v') :: rest => if k' = k then (k', v') :: rest else (k', v') :: dictTouch rest k

/-- First dict entry with a negative value, if any: the `assert bal >= 0`
loops of `replay_transfers` fail at the first such entry in dict order. -/
def findNeg (d : List (String × ℚ)) : Option (String × ℚ) :=
  d.find? (fun p => decide (p.2 < 0))

theorem dictGet_dictAdd (d : List (String × ℚ)) (k k' : String) (v : ℚ) :
    dictGet (dictAdd d k v) k' = dictGet d k' + (if k' = k then v else 0) := by
  induction d with
  | nil =>
    by_cases h : k' = k
    · subst h; simp [dictGet, dictAdd]
    · simp [dictGet, dictAdd, h, Ne.symm h]
  | cons p rest ih =>
    obtain ⟨k0, v0⟩ := p
    by_cases h0 : k0 = k
    · subst h0
      by_cases h1 : k' = k0
      · subst h1; simp [dictGet, dictAdd]
      · simp [dictGet, dictAdd, h1, Ne.symm h1]
    · by_cases h1 : k0 = k'
      · subst h1
        simp [dictGet, dictAdd, h0, Ne.symm h0]
      · simp [dictGet, dictAdd, h0, h1, ih]

theorem dictGet_dictTouch (d : List (String × ℚ)) (k k' : String) :
    dictGet (dictTouch d k) k' = dictGet d k' := by
  induction d with
  | nil =>
    by_cases h : k = k'
    · subst h; simp [dictGet, dictTouch]
    · simp [dictGet, dictTouch, h, Ne.symm h]
  | cons p rest ih =>
    obtain ⟨k0, v0⟩ := p
    by_cases h0 : k0 = k
    · simp [dictGet, dictTouch, h0]
    · by_cases h1 : k0 = k'
      · subst h1
        simp [dictGet, dictTouch, h0]
      · simp [dictGet, dictTouch, h0, h1, ih]

/-- Keys of a dict. -/
def dictKeys (d : List (String × ℚ)) : List String := d.map Prod.fst

theorem dictKeys_dictAdd (d : List (String × ℚ)) (k : String) (v : ℚ) :
    dictKeys (dictAdd d k v) = if k ∈ dictKeys d then dictKeys d else dictKeys d ++ [k] := by
  induction d with
  | nil => simp [dictKeys, dictAdd]
  | cons p rest ih =>
    obtain ⟨k0, v0⟩ := p
    by_cases h0 : k0 = k
    · subst h0
      simp [dictKeys, dictAdd]
    · simp only [dictKeys, dictAdd, if_neg h0, List.map_cons] at ih ⊢
      rw [ih]
      by_cases hmem : k ∈ List.map Prod.fst rest
      · simp [hmem]
      · simp [hmem, Ne.symm h0]

theorem dictKeys_dictTouch (d : List (String × ℚ)) (k : String) :
    dictKeys (dictTouch d k) = if k ∈ dictKeys d then dictKeys d else dictKeys d ++ [k] := by
  induction d with
  | nil => simp [dictKeys, dictTouch]
  | cons p rest ih =>
    obtain ⟨k0, v0⟩ := p
    by_cases h0 : k0 = k
    · subst h0
      simp [dictKeys, dictTouch]
    · simp only [dictKeys, dictTouch, if_neg h0, List.map_cons] at ih ⊢
      rw [ih]
      by_cases hmem : k ∈ List.map Prod.fst rest
      · simp [hmem]
      · simp [hmem, Ne.symm h0]

/-- A key absent from the dict has value `0`. -/
theorem dictGet_eq_zero_of_not_mem (d : List (String × ℚ)) (k : String)
    (h : k ∉ dictKeys d) : dictGet d k = 0 := by
  induction d with
  | nil => rfl
  | cons p rest ih =>
    obtain ⟨k0, v0⟩ := p
    simp only [dictKeys, List.map_cons, List.mem_cons, not_or] at h
    have h1 : k0 ≠ k := Ne.symm h.1
    have h2 : k ∉ dictKeys rest := h.2
    simp [dictGet, h1, ih h2]

theorem findNeg_cons (k0 : String) (v0 : ℚ) (rest : List (String × ℚ)) :
    findNeg ((k0, v0) :: rest) = if v0 < 0 then some (k0, v0) else findNeg rest := by
  by_cases h : v0 < 0 <;> simp [findNeg, List.find?_cons, h]

/-- With no duplicate keys, the dict holds an entry with a negative value
iff some key's looked-up value is negative. -/
theorem findNeg_eq_none_iff (d : List (String × ℚ)) (hnd : (dictKeys d).Nodup) :
    findNeg d = none ↔ ∀ k, 0 ≤ dictGet d k := by
  induction d with
  | nil =>
    simp only [findNeg, List.find?_nil, true_iff]
    intro k
    simp [dictGet]
  | cons p rest ih =>
    obtain ⟨k0, v0⟩ := p
    simp only [dictKeys, List.map_cons, List.nodup_cons] at hnd
    rw [findNeg_cons]
    constructor
    · intro h k
      by_cases hneg : v0 < 0
      · simp [hneg] at h
      · rw [if_neg hneg] at h
        by_cases hk : k0 = k
        · subst hk
          simp only [dictGet, if_true, eq_self_iff_true]
          linarith
        · simpa [dictGet, hk] using (ih hnd.2).mp h k
    · intro h
      have h0 := h k0
      simp only [dictGet, if_true, eq_self_iff_true] at h0
      have hneg : ¬ (v0 < 0) := by linarith
      rw [if_neg hneg]
      apply (ih hnd.2).mpr
      intro k
      by_cases hk : k0 = k
      · subst hk
        exact le_of_eq (dictGet_eq_zero_of_not_mem rest k0 hnd.1).symm
      · simpa [dictGet, hk] using h k

/-! ## Token transfers and ledger replay (`src/main.py`, `Wallet`)

`TokenTransfer` carries the fields set by `TokenTransfer.__init__`:
`value` and `fees` are Python `Decimal`s, modelled as `ℚ`; `timestamp`
(a UTC datetime) is modelled as `Int`.  Address comparisons in the code
go through `.lower()`, modelled with `pyLower` below. -/

/-- ASCII lowercasing of one character. -/
def lowerChar (c : Char) : Char :=
  if 'A' ≤ c ∧ c ≤ 'Z' then Char.ofNat (c.toNat + 32) else c

/-- Python's `str.lower()` restricted to ASCII, which covers the
hexadecimal addresses this code compares. -/
def pyLower (s : String) : String := ⟨s.data.map lowerChar⟩

structure TokenTransfer where
  from_addr : String
  to_addr : String
  value : ℚ
  fees : ℚ
  network : String
  token_symbol : String
  token_type : Option String
  timestamp : Int
  tx_hash : String
deriving DecidableEq, Repr

/-- The sort comparator of `replay_transfers` line 47:
`sorted(self.transfers, key=lambda t : (t.timestamp, -t.fees))`, i.e.
lexicographically by timestamp ascending then fee descending.  Python's
`sorted` is a stable merge sort, as is `List.mergeSort`. -/
def tle (a b : TokenTransfer) : Bool :=
  decide (a.timestamp < b.timestamp) ||
    (decide (a.timestamp = b.timestamp) && decide (b.fees ≤ a.fees))

/-- The sort key `(t.timestamp, -t.fees)` of `replay_transfers` line 47. -/
def sortKey (t : TokenTransfer) : Int × ℚ := (t.timestamp, -t.fees)

/-- State of the replay loop: the `balances` defaultdict and the
`seen_tx_hashes` set (a Python `set`, used only through membership). -/
structure ReplayState where
  balances : List (String × ℚ)
  seen : List String
deriving DecidableEq, Repr

/-- The `AssertionError` of the `assert bal >= 0` checks, identifying the
offending token and its balance (lines 65 and 82 of `main.py`). -/
inductive ReplayError where
  | negativeBalance (token : String) (bal : ℚ)
deriving DecidableEq, Repr

/-- Lines 52–61: on first sight of a transaction hash, debit the record's
fee from the network native-token balance when the wallet is the sender,
and add the hash to `seen_tx_hashes`. -/
def stepFee (w : String) (st : ReplayState) (t : TokenTransfer) : ReplayState :=
  if t.tx_hash ∈ st.seen then st
  else
    { balances :=
        if pyLower t.from_addr = pyLower w then dictAdd st.balances t.network (-t.fees)
        else st.balances,
      seen := t.tx_hash :: st.seen }

/-- Lines 67–77: skip zero-value records; otherwise debit when the wallet
is the sender, else credit when it is the recipient; the trailing
`logging.debug` read inserts the token key into the defaultdict. -/
def stepValue (w : String) (d : List (String × ℚ)) (t : TokenTransfer) : List (String × ℚ) :=
  if t.value = 0 then d
  else
    let d1 :=
      if pyLower t.from_addr = pyLower w then dictAdd d t.token_symbol (-t.value)
      else if pyLower t.to_addr = pyLower w then dictAdd d t.token_symbol t.value
      else d
    dictTouch d1 t.token_symbol

/-- One loop iteration of `replay_transfers` with the balance assertion
(lines 51–77): on a first-seen hash, after the fee debit, every balance
is asserted non-negative; then the value movement is applied. -/
def replayStep (w : String) (st : ReplayState) (t : TokenTransfer) :
    Except ReplayError ReplayState :=
  if t.tx_hash ∈ st.seen then
    .ok { st with balances := stepValue w st.balances t }
  else
    let st1 := stepFee w st t
    match findNeg st1.balances with
    | some p => .error (.negativeBalance p.1 p.2)
    | none => .ok { st1 with balances := stepValue w st1.balances t }

/-- One loop iteration with the assertion stripped: the state update that
a passing iteration performs. -/
def rawStep (w : String) (st : ReplayState) (t : TokenTransfer) : ReplayState :=
  let st1 := stepFee w st t
  { st1 with balances := stepValue w st1.balances t }

/-- Assertion-free replay of a ready-sorted sequence from a given state. -/
def rawFold (w : String) (st : ReplayState) (s : List TokenTransfer) : ReplayState :=
  s.foldl (rawStep w) st

/-- `Wallet.replay_transfers` (lines 26–83 of `main.py`) for a wallet
with address `w`: reset balances, sort by `(timestamp, -fees)`, replay
every transfer with the per-transaction assertion, then assert every
ending balance non-negative.  Returns the ending balances dict, or the
`AssertionError` identifying the first offending token. -/
def replay_transfers (w : String) (transfers : List TokenTransfer) :
    Except ReplayError (List (String × ℚ)) := do
  let sequence := transfers.mergeSort tle
  let st ← sequence.foldlM (replayStep w) ⟨[], []⟩
  match findNeg st.balances with
  | some p => .error (.negativeBalance p.1 p.2)
  | none => .ok st.balances

/-! ## Properties of the sort comparator -/

theorem tle_iff (a b : TokenTransfer) :
    tle a b = true ↔
      a.timestamp < b.timestamp ∨ (a.timestamp = b.timestamp ∧ b.fees ≤ a.fees) := by
  simp [tle]

theorem tle_trans : ∀ a b c : TokenTransfer,
    tle a b = true → tle b c = true → tle a c = true := by
  intro a b c hab hbc
  rw [tle_iff] at hab hbc ⊢
  rcases hab with h1 | ⟨h1, h1f⟩
  · rcases hbc with h2 | ⟨h2, _⟩
    · exact Or.inl (h1.trans h2)
    · exact Or.inl (h2 ▸ h1)
  · rcases hbc with h2 | ⟨h2, h2f⟩
    · exact Or.inl (h1 ▸ h2)
    · exact Or.inr ⟨h1.trans h2, h2f.trans h1f⟩

theorem tle_total : ∀ a b : TokenTransfer, (tle a b || tle b a) = true := by
  intro a b
  simp only [Bool.or_eq_true, tle_iff]
  rcases lt_trichotomy a.timestamp b.timestamp with h | h | h
  · exact Or.inl (Or.inl h)
  · rcases le_total b.fees a.fees with hf | hf
    · exact Or.inl (Or.inr ⟨h, hf⟩)
    · exact Or.inr (Or.inr ⟨h.symm, hf⟩)
  · exact Or.inr (Or.inl h)

/-- Two transfers each at-most the other under `tle` share a sort key. -/
theorem tle_antisymm_key {a b : TokenTransfer}
    (hab : tle a b = true) (hba : tle b a = true) : sortKey a = sortKey b := by
  rw [tle_iff] at hab hba
  rcases hab with h1 | ⟨h1, h1f⟩
  · rcases hba with h2 | ⟨h2, _⟩
    · exact absurd (h1.trans h2) (lt_irrefl _)
    · exact absurd h1 (h2 ▸ lt_irrefl _)
  · rcases hba with h2 | ⟨h2, h2f⟩
    · exact absurd h2 (h1 ▸ lt_irrefl _)
    · have : a.fees = b.fees := le_antisymm (h2f) (h1f)
      simp [sortKey, h1, this]

/-- A permutation between two `tle`-sorted lists whose sort keys are
pairwise distinct is the identity: sorting such a list is unambiguous. -/
theorem eq_of_perm_of_sorted_distinct (l₁ : List TokenTransfer) :
    ∀ l₂ : List TokenTransfer, List.Perm l₁ l₂ →
    (∀ a ∈ l₁, ∀ b ∈ l₁, a ≠ b → sortKey a ≠ sortKey b) →
    l₁.Pairwise (fun a b => tle a b = true) →
    l₂.Pairwise (fun a b => tle a b = true) → l₁ = l₂ := by
  induction l₁ with
  | nil =>
    intro l₂ hp _ _ _
    exact (hp.symm.eq_nil).symm
  | cons a t ih =>
    intro l₂ hp hdist hs₁ hs₂
    cases l₂ with
    | nil => exact absurd hp.eq_nil (by simp)
    | cons b t₂ =>
      have hs₁' := List.pairwise_cons.mp hs₁
      have hs₂' := List.pairwise_cons.mp hs₂
      have hab : a = b := by
        by_contra hne
        have hbmem : b ∈ a :: t := hp.symm.subset (List.mem_cons_self b t₂)
        have hamem : a ∈ b :: t₂ := hp.subset (List.mem_cons_self a t)
        have h1 : tle a b = true := by
          rcases List.mem_cons.mp hbmem with h | h
          · exact absurd h.symm hne
          · exact hs₁'.1 b h
        have h2 : tle b a = true := by
          rcases List.mem_cons.mp hamem with h | h
          · exact absurd h hne
          · exact hs₂'.1 a h
        exact hdist a (List.mem_cons_self a t) b hbmem hne (tle_antisymm_key h1 h2)
      subst hab
      have hpt : List.Perm t t₂ := hp.cons_inv
      have htail := ih t₂ hpt
        (fun x hx y hy => hdist x (List.mem_cons_of_mem a hx) y (List.mem_cons_of_mem a hy))
        hs₁'.2 hs₂'.2
      rw [htail]

/-- Permutations with pairwise-distinct sort keys sort identically. -/
theorem mergeSort_tle_eq_of_perm (l₁ l₂ : List TokenTransfer)
    (hp : List.Perm l₁ l₂)
    (hdist : ∀ a ∈ l₁, ∀ b ∈ l₁, a ≠ b → sortKey a ≠ sortKey b) :
    l₁.mergeSort tle = l₂.mergeSort tle := by
  apply eq_of_perm_of_sorted_distinct
  · exact (List.mergeSort_perm l₁ tle).trans (hp.trans (List.mergeSort_perm l₂ tle).symm)
  · intro x hx y hy
    exact hdist x ((List.mergeSort_perm l₁ tle).subset hx)
      y ((List.mergeSort_perm l₁ tle).subset hy)
  · exact List.sorted_mergeSort tle_trans tle_total l₁
  · exact List.sorted_mergeSort tle_trans tle_total l₂

/-! ## Concrete transfers used to exhibit order dependence

Three transfers for wallet `"0xw"` on network `"AVAX"`: a deposit of 10
AVAX (its own hash, timestamp 0), and two records sharing hash `"h1"`,
timestamp 1 and fee 5 — one sent by the wallet, one sent by a third
party.  The two `"h1"` records compare equal under the sort key
`(timestamp, -fees)`, so the stable sort keeps them in input order, and
whichever comes first decides whether the fee is charged. -/

def cexDeposit : TokenTransfer :=
  ⟨"0xy", "0xw", 10, 0, "AVAX", "AVAX", some "native", 0, "h2"⟩

def cexSpend : TokenTransfer :=
  ⟨"0xw", "0xz", 0, 5, "AVAX", "AVAX", none, 1, "h1"⟩

def cexOther : TokenTransfer :=
  ⟨"0xy", "0xw", 0, 5, "AVAX", "AVAX", none, 1, "h1"⟩

/-- **C1, counterexample.**  The final balances of `replay_transfers` are
*not* a pure function of the transfer multiset.  The two permutations
below of the same three transfers replay to different ending balances
(5 AVAX versus 10 AVAX): the records `cexSpend` and `cexOther` share the
sort key `(1, -5)`, the stable sort preserves their input order, and the
transaction fee of hash `"h1"` is charged only when the record first
seen for `"h1"` was sent by the wallet. -/
theorem replay_transfers_not_order_invariant :
    List.Perm [cexDeposit, cexSpend, cexOther] [cexDeposit, cexOther, cexSpend] ∧
    replay_transfers "0xw" [cexDeposit, cexSpend, cexOther] ≠
      replay_transfers "0xw" [cexDeposit, cexOther, cexSpend] := by
  constructor
  · decide
  · have h1 : replay_transfers "0xw" [cexDeposit, cexSpend, cexOther] =
        .ok [("AVAX", 5)] := by
      have hs : List.Pairwise (fun a b => tle a b = true) [cexDeposit, cexSpend, cexOther] := by
        decide
      unfold replay_transfers
      rw [List.mergeSort_of_sorted hs]
      norm_num +decide [List.foldlM, replayStep, stepFee, stepValue, dictAdd, dictTouch,
        findNeg, List.find?, bind, Except.bind, pure, Except.pure,
        cexDeposit, cexSpend, cexOther]
    have h2 : replay_transfers "0xw" [cexDeposit, cexOther, cexSpend] =
        .ok [("AVAX", 10)] := by
      have hs : List.Pairwise (fun a b => tle a b = true) [cexDeposit, cexOther, cexSpend] := by
        decide
      unfold replay_transfers
      rw [List.mergeSort_of_sorted hs]
      norm_num +decide [List.foldlM, replayStep, stepFee, stepValue, dictAdd, dictTouch,
        findNeg, List.find?, bind, Except.bind, pure, Except.pure,
        cexDeposit, cexSpend, cexOther]
    rw [h1, h2]
    norm_num [Except.ok.injEq]

/-- **C1 (amended).**  Order invariance does hold on the domain where the
sort is unambiguous: if no two distinct transfers of the list share the
sort key `(timestamp, -fees)`, then replaying any permutation of the
list gives the identical result (same ending balances or the same
`NegativeBalance` abort). -/
theorem replay_transfers_perm_invariant (w : String) (l1 l2 : List TokenTransfer)
    (hp : List.Perm l1 l2)
    (hdist : ∀ a ∈ l1, ∀ b ∈ l1, a ≠ b → sortKey a ≠ sortKey b) :
    replay_transfers w l1 = replay_transfers w l2 := by
  unfold replay_transfers
  rw [mergeSort_tle_eq_of_perm l1 l2 hp hdist]

/-- Witness for `replay_transfers_perm_invariant` at a concrete pair of
transfer lists with distinct sort keys. -/
theorem replay_transfers_perm_invariant_witness :
    replay_transfers "0xw" [cexDeposit, cexSpend] =
      replay_transfers "0xw" [cexSpend, cexDeposit] :=
  replay_transfers_perm_invariant "0xw" [cexDeposit, cexSpend] [cexSpend, cexDeposit]
    (by decide) (by decide)

/-! ## Characterizing when replay aborts (claim C2)

`replay_transfers` checks balances only when it first meets a new
transaction hash (after debiting that transaction's fee) and once more
after the last transfer.  `checkpointViolation` is the recursive
description of "some such check fails". -/

/-- Some first-sight balance check fails while replaying `s` from `st`:
either the head starts an unseen transaction and, right after its fee
debit, some dict entry is negative, or a later check fails. -/
def checkpointViolation (w : String) (st : ReplayState) : List TokenTransfer → Prop
  | [] => False
  | t :: ts =>
      (t.tx_hash ∉ st.seen ∧ findNeg (stepFee w st t).balances ≠ none) ∨
        checkpointViolation w (rawStep w st t) ts

theorem replayStep_of_seen (w : String) (st : ReplayState) (t : TokenTransfer)
    (hseen : t.tx_hash ∈ st.seen) : replayStep w st t = .ok (rawStep w st t) := by
  simp [replayStep, rawStep, stepFee, hseen]

theorem replayStep_of_check_pass (w : String) (st : ReplayState) (t : TokenTransfer)
    (hseen : t.tx_hash ∉ st.seen) (hfind : findNeg (stepFee w st t).balances = none) :
    replayStep w st t = .ok (rawStep w st t) := by
  simp [replayStep, rawStep, hseen, hfind]

theorem replayStep_of_check_fail (w : String) (st : ReplayState) (t : TokenTransfer)
    (p : String × ℚ)
    (hseen : t.tx_hash ∉ st.seen) (hfind : findNeg (stepFee w st t).balances = some p) :
    replayStep w st t = .error (.negativeBalance p.1 p.2) := by
  simp [replayStep, hseen, hfind]

/-- A run of the checked loop that does not abort computes exactly the
assertion-free fold. -/
theorem foldlM_replayStep_eq_ok (w : String) :
    ∀ (s : List TokenTransfer) (st st' : ReplayState),
      s.foldlM (replayStep w) st = .ok st' → st' = rawFold w st s := by
  intro s
  induction s with
  | nil =>
    intro st st' h
    simpa [List.foldlM, rawFold, pure, Except.pure] using h.symm
  | cons t ts ih =>
    intro st st' h
    rw [List.foldlM_cons] at h
    by_cases hseen : t.tx_hash ∈ st.seen
    · rw [replayStep_of_seen w st t hseen] at h
      exact ih (rawStep w st t) st' h
    · cases hfind : findNeg (stepFee w st t).balances with
      | some p =>
        rw [replayStep_of_check_fail w st t p hseen hfind] at h
        exact absurd h (by simp [bind, Except.bind])
      | none =>
        rw [replayStep_of_check_pass w st t hseen hfind] at h
        exact ih (rawStep w st t) st' h

/-- The checked loop aborts iff some first-sight checkpoint fails. -/
theorem foldlM_replayStep_error_iff (w : String) :
    ∀ (s : List TokenTransfer) (st : ReplayState),
      (∃ e, s.foldlM (replayStep w) st = .error e) ↔ checkpointViolation w st s := by
  intro s
  induction s with
  | nil =>
    intro st
    simp [List.foldlM, checkpointViolation, pure, Except.pure]
  | cons t ts ih =>
    intro st
    rw [List.foldlM_cons]
    by_cases hseen : t.tx_hash ∈ st.seen
    · rw [replayStep_of_seen w st t hseen]
      have hbind : ((Except.ok (rawStep w st t)) >>= fun b => ts.foldlM (replayStep w) b)
          = ts.foldlM (replayStep w) (rawStep w st t) := rfl
      rw [hbind, ih (rawStep w st t)]
      simp [checkpointViolation, hseen]
    · cases hfind : findNeg (stepFee w st t).balances with
      | some p =>
        rw [replayStep_of_check_fail w st t p hseen hfind]
        have hbind : ((Except.error (ReplayError.negativeBalance p.1 p.2) :
              Except ReplayError ReplayState) >>= fun b => ts.foldlM (replayStep w) b)
            = Except.error (.negativeBalance p.1 p.2) := rfl
        rw [hbind]
        constructor
        · intro _
          exact Or.inl ⟨hseen, by simp [hfind]⟩
        · intro _
          exact ⟨_, rfl⟩
      | none =>
        rw [replayStep_of_check_pass w st t hseen hfind]
        have hbind : ((Except.ok (rawStep w st t)) >>= fun b => ts.foldlM (replayStep w) b)
            = ts.foldlM (replayStep w) (rawStep w st t) := rfl
        rw [hbind, ih (rawStep w st t)]
        simp [checkpointViolation, hfind]

/-- `checkpointViolation` unrolled into an explicit prefix of the
sequence: some transfer `t` opening a new transaction is reached with
the assertion state negative. -/
theorem checkpointViolation_iff_split (w : String) :
    ∀ (s : List TokenTransfer) (st : ReplayState),
      checkpointViolation w st s ↔
        ∃ pre t post, s = pre ++ t :: post ∧ t.tx_hash ∉ (rawFold w st pre).seen ∧
          findNeg (stepFee w (rawFold w st pre) t).balances ≠ none := by
  intro s
  induction s with
  | nil =>
    intro st
    simp [checkpointViolation]
  | cons t ts ih =>
    intro st
    constructor
    · intro h
      rcases h with ⟨hseen, hfind⟩ | h
      · exact ⟨[], t, ts, rfl, hseen, hfind⟩
      · rcases (ih (rawStep w st t)).mp h with ⟨pre, u, post, heq, hseen, hfind⟩
        exact ⟨t :: pre, u, post, by rw [heq]; rfl, hseen, hfind⟩
    · rintro ⟨pre, u, post, heq, hseen, hfind⟩
      cases pre with
      | nil =>
        obtain ⟨rfl, rfl⟩ : t = u ∧ ts = post := by
          simpa using heq
        exact Or.inl ⟨hseen, hfind⟩
      | cons p pre' =>
        obtain ⟨rfl, hts⟩ : t = p ∧ ts = pre' ++ u :: post := by
          simpa using heq
        exact Or.inr ((ih (rawStep w st t)).mpr ⟨pre', u, post, hts, hseen, hfind⟩)

theorem nodup_dictKeys_dictAdd {d : List (String × ℚ)} (h : (dictKeys d).Nodup)
    (k : String) (v : ℚ) : (dictKeys (dictAdd d k v)).Nodup := by
  rw [dictKeys_dictAdd]
  by_cases hm : k ∈ dictKeys d
  · simpa [hm]
  · rw [if_neg hm]
    exact h.append (List.nodup_singleton k)
      (fun a ha hb => hm ((List.mem_singleton.mp hb) ▸ ha))

theorem nodup_dictKeys_dictTouch {d : List (String × ℚ)} (h : (dictKeys d).Nodup)
    (k : String) : (dictKeys (dictTouch d k)).Nodup := by
  rw [dictKeys_dictTouch]
  by_cases hm : k ∈ dictKeys d
  · simpa [hm]
  · rw [if_neg hm]
    exact h.append (List.nodup_singleton k)
      (fun a ha hb => hm ((List.mem_singleton.mp hb) ▸ ha))

theorem nodup_dictKeys_stepFee {w : String} {st : ReplayState}
    (h : (dictKeys st.balances).Nodup) (t : TokenTransfer) :
    (dictKeys (stepFee w st t).balances).Nodup := by
  unfold stepFee
  by_cases hseen : t.tx_hash ∈ st.seen
  · simpa [hseen]
  · rw [if_neg hseen]
    by_cases hfrom : pyLower t.from_addr = pyLower w
    · simpa [hfrom] using nodup_dictKeys_dictAdd h t.network (-t.fees)
    · simpa [hfrom] using h

theorem nodup_dictKeys_stepValue {w : String} {d : List (String × ℚ)}
    (h : (dictKeys d).Nodup) (t : TokenTransfer) :
    (dictKeys (stepValue w d t)).Nodup := by
  unfold stepValue
  by_cases hv : t.value = 0
  · simpa [hv]
  · rw [if_neg hv]
    by_cases hfrom : pyLower t.from_addr = pyLower w
    · simpa [hfrom] using
        nodup_dictKeys_dictTouch (nodup_dictKeys_dictAdd h t.token_symbol (-t.value))
          t.token_symbol
    · by_cases hto : pyLower t.to_addr = pyLower w
      · simpa [hfrom, hto] using
          nodup_dictKeys_dictTouch (nodup_dictKeys_dictAdd h t.token_symbol t.value)
            t.token_symbol
      · simpa [hfrom, hto] using nodup_dictKeys_dictTouch h t.token_symbol

theorem nodup_dictKeys_rawStep {w : String} {st : ReplayState}
    (h : (dictKeys st.balances).Nodup) (t : TokenTransfer) :
    (dictKeys (rawStep w st t).balances).Nodup :=
  nodup_dictKeys_stepValue (nodup_dictKeys_stepFee h t) t

theorem nodup_dictKeys_rawFold (w : String) :
    ∀ (s : List TokenTransfer) (st : ReplayState),
      (dictKeys st.balances).Nodup → (dictKeys (rawFold w st s).balances).Nodup := by
  intro s
  induction s with
  | nil => intro st h; exact h
  | cons t ts ih =>
    intro st h
    exact ih (rawStep w st t) (nodup_dictKeys_rawStep h t)

theorem findNeg_ne_none_iff (d : List (String × ℚ)) (hnd : (dictKeys d).Nodup) :
    findNeg d ≠ none ↔ ∃ k, dictGet d k < 0 := by
  rw [Ne, findNeg_eq_none_iff d hnd]
  push_neg
  rfl

/-- **C2 (amended).**  `replay_transfers` aborts with a `NegativeBalance`
error (identifying an offending token) iff either (a) some transfer `t`
of the sorted sequence opens a not-yet-seen transaction hash at a point
where, after replaying the preceding transfers and debiting `t`'s fee,
some token balance is negative, or (b) the final balances hold a
negative token balance.  The balances are checked only at these
first-sight checkpoints and at the end — not on every hash change of the
sequence, and not after every prefix: a balance that dips below zero
mid-transaction and recovers before the next new hash is never detected
(see `replay_transfers_misses_mid_transaction_dip`). -/
theorem replay_transfers_abort_iff (w : String) (l : List TokenTransfer) :
    (∃ e, replay_transfers w l = .error e) ↔
      ((∃ pre t post, l.mergeSort tle = pre ++ t :: post ∧
          t.tx_hash ∉ (rawFold w ⟨[], []⟩ pre).seen ∧
          ∃ tok, dictGet (stepFee w (rawFold w ⟨[], []⟩ pre) t).balances tok < 0) ∨
        ∃ tok, dictGet (rawFold w ⟨[], []⟩ (l.mergeSort tle)).balances tok < 0) := by
  have hnil : (dictKeys (⟨[], []⟩ : ReplayState).balances).Nodup := by
    simp [dictKeys]
  have hfirst : (∃ pre t post, l.mergeSort tle = pre ++ t :: post ∧
      t.tx_hash ∉ (rawFold w ⟨[], []⟩ pre).seen ∧
      ∃ tok, dictGet (stepFee w (rawFold w ⟨[], []⟩ pre) t).balances tok < 0) ↔
      checkpointViolation w ⟨[], []⟩ (l.mergeSort tle) := by
    rw [checkpointViolation_iff_split]
    apply exists_congr; intro pre
    apply exists_congr; intro t
    apply exists_congr; intro post
    apply and_congr_right; intro _
    apply and_congr_right; intro _
    exact (findNeg_ne_none_iff _
      (nodup_dictKeys_stepFee (nodup_dictKeys_rawFold w pre _ hnil) t)).symm
  have hsecond : (∃ tok, dictGet (rawFold w ⟨[], []⟩ (l.mergeSort tle)).balances tok < 0) ↔
      findNeg (rawFold w ⟨[], []⟩ (l.mergeSort tle)).balances ≠ none :=
    (findNeg_ne_none_iff _ (nodup_dictKeys_rawFold w _ _ hnil)).symm
  rw [hfirst, hsecond]
  unfold replay_transfers
  cases hfold : (l.mergeSort tle).foldlM (replayStep w) ⟨[], []⟩ with
  | error e =>
    simp only [hfold]
    constructor
    · intro _
      exact Or.inl ((foldlM_replayStep_error_iff w _ _).mp ⟨e, hfold⟩)
    · intro _
      exact ⟨e, rfl⟩
  | ok st =>
    have hst := foldlM_replayStep_eq_ok w _ _ _ hfold
    subst hst
    simp only [hfold]
    cases hfindf : findNeg (rawFold w ⟨[], []⟩ (l.mergeSort tle)).balances with
    | some p =>
      constructor
      · intro _
        exact Or.inr (by simp [hfindf])
      · intro _
        refine ⟨.negativeBalance p.1 p.2, ?_⟩
        show (match findNeg (rawFold w ⟨[], []⟩ (l.mergeSort tle)).balances with
          | some p => Except.error (ReplayError.negativeBalance p.1 p.2)
          | none => Except.ok (rawFold w ⟨[], []⟩ (l.mergeSort tle)).balances) =
            Except.error (.negativeBalance p.1 p.2)
        rw [hfindf]
    | none =>
      constructor
      · rintro ⟨e, he⟩
        rw [show ((Except.ok (rawFold w ⟨[], []⟩ (l.mergeSort tle)) :
            Except ReplayError ReplayState) >>= fun st =>
              match findNeg st.balances with
              | some p => Except.error (ReplayError.negativeBalance p.1 p.2)
              | none => Except.ok st.balances) =
            (match findNeg (rawFold w ⟨[], []⟩ (l.mergeSort tle)).balances with
              | some p => Except.error (ReplayError.negativeBalance p.1 p.2)
              | none => Except.ok (rawFold w ⟨[], []⟩ (l.mergeSort tle)).balances) from rfl,
          hfindf] at he
        exact absurd he (by simp)
      · rintro (h | h)
        · exact absurd ((foldlM_replayStep_error_iff w _ _).mpr h) (by simp [hfold])
        · exact absurd h (by simp [hfindf])

/-- Two same-hash, same-timestamp, zero-fee transfers: the wallet first
sends 5 TOK away and then receives 5 TOK back within transaction `"h1"`. -/
def midDebit : TokenTransfer :=
  ⟨"0xw", "0xz", 5, 0, "AVAX", "TOK", some "ERC20", 0, "h1"⟩

def midCredit : TokenTransfer :=
  ⟨"0xy", "0xw", 5, 0, "AVAX", "TOK", some "ERC20", 0, "h1"⟩

/-- **C2, counterexample.**  Replay does *not* abort whenever some
causally-ordered prefix of the sorted sequence drives a token below
zero: after the prefix consisting of just `midDebit`, the TOK balance is
−5, yet `replay_transfers` completes without raising, because the dip is
repaired by `midCredit` (same transaction hash) before the next balance
checkpoint. -/
theorem replay_transfers_misses_mid_transaction_dip :
    (∀ e, replay_transfers "0xw" [midDebit, midCredit] ≠ .error e) ∧
    dictGet (rawFold "0xw" ⟨[], []⟩
        (([midDebit, midCredit].mergeSort tle).take 1)).balances "TOK" < 0 := by
  have hs : List.Pairwise (fun a b => tle a b = true) [midDebit, midCredit] := by
    decide
  constructor
  · have h : replay_transfers "0xw" [midDebit, midCredit] =
        .ok [("AVAX", 0), ("TOK", 0)] := by
      unfold replay_transfers
      rw [List.mergeSort_of_sorted hs]
      norm_num +decide [List.foldlM, replayStep, stepFee, stepValue, dictAdd, dictTouch,
        findNeg, List.find?, bind, Except.bind, pure, Except.pure, midDebit, midCredit]
    intro e
    rw [h]
    simp
  · rw [List.mergeSort_of_sorted hs]
    norm_num +decide [rawFold, rawStep, stepFee, stepValue, List.foldl, dictAdd, dictTouch,
      dictGet, midDebit, midCredit]

/-! ## Balance characterization: value deltas and one fee per hash (C4) -/

/-- Spec-side description of the value movement a single record causes on
token `tok`: zero-value records are skipped, a record whose sender is the
wallet debits, else one whose recipient is the wallet credits. -/
def valueContrib (w : String) (t : TokenTransfer) (tok : String) : ℚ :=
  if t.value = 0 then 0
  else if t.token_symbol ≠ tok then 0
  else if pyLower t.from_addr = pyLower w then -t.value
  else if pyLower t.to_addr = pyLower w then t.value
  else 0

/-- Total value movement of a sequence on token `tok`. -/
def spec_valueDelta (w : String) (s : List TokenTransfer) (tok : String) : ℚ :=
  (s.map (fun t => valueContrib w t tok)).sum

/-- The first record of each distinct transaction hash, in sequence
order, skipping hashes already in `seen` — the records sighting a new
transaction. -/
def firstOccurrences (seen : List String) : List TokenTransfer → List TokenTransfer
  | [] => []
  | t :: ts =>
      if t.tx_hash ∈ seen then firstOccurrences seen ts
      else t :: firstOccurrences (t.tx_hash :: seen) ts

/-- Total fee charged to token `tok` over a sequence, starting from the
hashes in `seen`: for each distinct transaction hash, the fee of its
first record is charged exactly once, and only when the wallet is that
record's sender, against that record's network token. -/
def spec_feeChargeFrom (w : String) (seen : List String)
    (s : List TokenTransfer) (tok : String) : ℚ :=
  ((firstOccurrences seen s).map
    (fun t => if pyLower t.from_addr = pyLower w ∧ t.network = tok then t.fees else 0)).sum

/-- Total fee charged to token `tok`, no hash pre-seen. -/
def spec_feeCharge (w : String) (s : List TokenTransfer) (tok : String) : ℚ :=
  spec_feeChargeFrom w [] s tok

theorem stepFee_seen_eq (w : String) (st : ReplayState) (t : TokenTransfer) :
    (stepFee w st t).seen =
      if t.tx_hash ∈ st.seen then st.seen else t.tx_hash :: st.seen := by
  unfold stepFee
  by_cases hseen : t.tx_hash ∈ st.seen
  · simp [hseen]
  · by_cases hfrom : pyLower t.from_addr = pyLower w <;> simp [hseen, hfrom]

theorem dictGet_stepFee (w : String) (st : ReplayState) (t : TokenTransfer) (tok : String) :
    dictGet (stepFee w st t).balances tok = dictGet st.balances tok +
      (if t.tx_hash ∈ st.seen then 0
       else if pyLower t.from_addr = pyLower w ∧ t.network = tok then -t.fees else 0) := by
  unfold stepFee
  by_cases hseen : t.tx_hash ∈ st.seen
  · simp [hseen]
  · by_cases hfrom : pyLower t.from_addr = pyLower w
    · by_cases htok : t.network = tok
      · simp [hseen, hfrom, htok, dictGet_dictAdd]
      · simp [hseen, hfrom, htok, dictGet_dictAdd, Ne.symm htok]
    · simp [hseen, hfrom]

theorem dictGet_stepValue (w : String) (d : List (String × ℚ)) (t : TokenTransfer)
    (tok : String) :
    dictGet (stepValue w d t) tok = dictGet d tok + valueContrib w t tok := by
  unfold stepValue valueContrib
  by_cases hv : t.value = 0
  · simp [hv]
  · by_cases htok : t.token_symbol = tok
    · subst htok
      by_cases hfrom : pyLower t.from_addr = pyLower w
      · simp [hv, hfrom, dictGet_dictTouch, dictGet_dictAdd]
      · by_cases hto : pyLower t.to_addr = pyLower w
        · simp [hv, hfrom, hto, dictGet_dictTouch, dictGet_dictAdd]
        · simp [hv, hfrom, hto, dictGet_dictTouch]
    · have htok' : tok ≠ t.token_symbol := Ne.symm htok
      by_cases hfrom : pyLower t.from_addr = pyLower w
      · simp [hv, htok, hfrom, dictGet_dictTouch, dictGet_dictAdd, htok']
      · by_cases hto : pyLower t.to_addr = pyLower w
        · simp [hv, htok, hfrom, hto, dictGet_dictTouch, dictGet_dictAdd, htok']
        · simp [hv, htok, hfrom, hto, dictGet_dictTouch]

/-- Running balance of the assertion-free fold: all value movements plus
one fee debit per distinct transaction hash (charged at its first
record, only when the wallet is that record's sender). -/
theorem dictGet_rawFold (w : String) :
    ∀ (s : List TokenTransfer) (st : ReplayState) (tok : String),
      dictGet (rawFold w st s).balances tok =
        dictGet st.balances tok + spec_valueDelta w s tok -
          spec_feeChargeFrom w st.seen s tok := by
  intro s
  induction s with
  | nil =>
    intro st tok
    simp [rawFold, spec_valueDelta, spec_feeChargeFrom, firstOccurrences]
  | cons t ts ih =>
    intro st tok
    have hfold : rawFold w st (t :: ts) = rawFold w (rawStep w st t) ts := rfl
    rw [hfold, ih (rawStep w st t) tok]
    have hbal : dictGet (rawStep w st t).balances tok =
        dictGet st.balances tok +
          (if t.tx_hash ∈ st.seen then 0
           else if pyLower t.from_addr = pyLower w ∧ t.network = tok then -t.fees else 0) +
          valueContrib w t tok := by
      unfold rawStep
      rw [dictGet_stepValue, dictGet_stepFee]
    have hseen' : (rawStep w st t).seen =
        if t.tx_hash ∈ st.seen then st.seen else t.tx_hash :: st.seen := by
      unfold rawStep
      exact stepFee_seen_eq w st t
    rw [hbal, hseen']
    by_cases hseen : t.tx_hash ∈ st.seen
    · simp only [hseen, if_true, if_pos]
      have : spec_feeChargeFrom w st.seen (t :: ts) tok =
          spec_feeChargeFrom w st.seen ts tok := by
        simp [spec_feeChargeFrom, firstOccurrences, hseen]
      rw [this]
      simp [spec_valueDelta]
      ring
    · simp only [hseen, if_false, if_neg]
      have : spec_feeChargeFrom w st.seen (t :: ts) tok =
          (if pyLower t.from_addr = pyLower w ∧ t.network = tok then t.fees else 0) +
            spec_feeChargeFrom w (t.tx_hash :: st.seen) ts tok := by
        simp [spec_feeChargeFrom, firstOccurrences, hseen]
      rw [this]
      simp only [spec_valueDelta, List.map_cons, List.sum_cons]
      by_cases hfee : pyLower t.from_addr = pyLower w ∧ t.network = tok
      · simp [hfee]; ring
      · simp [hfee]; ring

/-- **C4.**  `replay_transfers` replays the sequence sorted ascending by
timestamp with a descending-fee tie-break (`tle`), and whenever it
completes, each ending token balance equals the sum of that token's
value movements minus one fee debit per distinct transaction hash —
taken at the hash's first record in the sorted order, and charged only
when the wallet is that record's sender (`spec_feeCharge`) — even when
several records share the hash. -/
theorem replay_transfers_charges_fee_once (w : String) (l : List TokenTransfer)
    (bal : List (String × ℚ)) (h : replay_transfers w l = .ok bal) :
    List.Perm (l.mergeSort tle) l ∧
    (l.mergeSort tle).Pairwise (fun a b => tle a b = true) ∧
    ∀ tok, dictGet bal tok =
      spec_valueDelta w (l.mergeSort tle) tok - spec_feeCharge w (l.mergeSort tle) tok := by
  refine ⟨List.mergeSort_perm l tle, List.sorted_mergeSort tle_trans tle_total l, ?_⟩
  intro tok
  have hbal : bal = (rawFold w ⟨[], []⟩ (l.mergeSort tle)).balances := by
    unfold replay_transfers at h
    cases hfold : (l.mergeSort tle).foldlM (replayStep w) ⟨[], []⟩ with
    | error e =>
      simp [hfold, bind, Except.bind] at h
    | ok st =>
      have hst := foldlM_replayStep_eq_ok w _ _ _ hfold
      simp only [hfold, bind, Except.bind] at h
      cases hfind : findNeg st.balances with
      | some p =>
        simp [hfind] at h
      | none =>
        simp only [hfind, Except.ok.injEq] at h
        rw [← h, hst]
  rw [hbal, dictGet_rawFold w (l.mergeSort tle) ⟨[], []⟩ tok]
  simp [dictGet, spec_feeCharge]

/-- A deposit of 10 AVAX to the wallet at timestamp 0 under hash `"h2"`. -/
def seedDeposit : TokenTransfer :=
  ⟨"0xy", "0xw", 10, 0, "AVAX", "AVAX", some "native", 0, "h2"⟩

/-- The fee-bearing top-level gas record of hash `"h1"` (fee 2, sender
the wallet, zero value). -/
def gasRecord : TokenTransfer :=
  ⟨"0xw", "0xc", 0, 2, "AVAX", "AVAX", none, 1, "h1"⟩

/-- A zero-fee internal transfer crediting the wallet 7 AVAX under the
same hash `"h1"` and timestamp as `gasRecord`. -/
def internalCredit : TokenTransfer :=
  ⟨"0xc", "0xw", 7, 0, "AVAX", "AVAX", some "native", 1, "h1"⟩

/-- Witness for `replay_transfers_charges_fee_once`: the spec scenario of
a fee-bearing record plus a same-hash internal credit.  Replay ends with
10 − 2 + 7 = 15 AVAX: the fee is charged exactly once. -/
theorem replay_transfers_charges_fee_once_witness :
    dictGet [("AVAX", 15)] "AVAX" =
      spec_valueDelta "0xw" ([seedDeposit, gasRecord, internalCredit].mergeSort tle) "AVAX" -
        spec_feeCharge "0xw" ([seedDeposit, gasRecord, internalCredit].mergeSort tle) "AVAX" :=
  (replay_transfers_charges_fee_once "0xw" [seedDeposit, gasRecord, internalCredit]
    [("AVAX", 15)]
    (by
      have hs : List.Pairwise (fun a b => tle a b = true)
          [seedDeposit, gasRecord, internalCredit] := by decide
      unfold replay_transfers
      rw [List.mergeSort_of_sorted hs]
      norm_num +decide [List.foldlM, replayStep, stepFee, stepValue, dictAdd, dictTouch,
        findNeg, List.find?, bind, Except.bind, pure, Except.pure,
        seedDeposit, gasRecord, internalCredit])).2.2 "AVAX"

/-- A transfer whose sender and recipient both equal the wallet address
(case-insensitively), with non-zero value. -/
def selfTransfer : TokenTransfer :=
  ⟨"0xW", "0xw", 5, 0, "AVAX", "TOK", some "ERC20", 0, "h3"⟩

/-- **C10.**  In the replay value step (lines 70–75 of `main.py`), a
non-zero-value transfer whose from- and to-address both equal the wallet
address case-insensitively takes only the debit branch: the token
balance decreases by the value and the matching credit is never applied,
because the sender check is the `if` and the recipient check only its
`elif`. -/
theorem stepValue_self_transfer_only_debits (w : String) (d : List (String × ℚ))
    (t : TokenTransfer) (hv : t.value ≠ 0)
    (hfrom : pyLower t.from_addr = pyLower w) (hto : pyLower t.to_addr = pyLower w) :
    ∀ tok, dictGet (stepValue w d t) tok =
      dictGet d tok - (if tok = t.token_symbol then t.value else 0) := by
  intro tok
  unfold stepValue
  rw [if_neg hv, if_pos hfrom, dictGet_dictTouch, dictGet_dictAdd]
  by_cases htok : tok = t.token_symbol <;> simp [htok] <;> ring

/-- Witness for `stepValue_self_transfer_only_debits`: a 5 TOK
self-transfer leaves the wallet with −5 TOK, not 0. -/
theorem stepValue_self_transfer_only_debits_witness :
    dictGet (stepValue "0xw" [] selfTransfer) "TOK" =
      dictGet [] "TOK" - (if "TOK" = selfTransfer.token_symbol then selfTransfer.value else 0) :=
  stepValue_self_transfer_only_debits "0xw" [] selfTransfer
    (by decide) (by decide) (by decide) "TOK"

/-! ## Contract metadata resolver (`src/ContractStorage.py`)

A web3 contract object is modelled by its address and optional parsed
ABI (a selector → function-name table).  The external collaborators —
the block explorer's `getabi` endpoint, read-only `call()`s through the
RPC node, and raw storage reads — are modelled by a `ChainEnv` oracle.
A `call()` either succeeds, raises `BadFunctionCallOutput` (the function
is absent), or raises `ContractLogicError` (the function exists but
reverts).  `init_cache` (disk I/O) is not modelled: the in-memory cache
is threaded explicitly as a `Store`. -/

/-- A parsed ABI: entries of (4-byte selector, function name). -/
abbrev Abi := List (String × String)

structure Contract where
  address : String
  abi : Option Abi
deriving DecidableEq, Repr

/-- Outcome of a read-only probe `call()`. -/
inductive CallOutcome where
  | success
  | badFunctionCallOutput
  | contractLogicError
deriving DecidableEq, Repr

/-- Outcome of calling the `implementation()` accessor. -/
inductive ImplCallOutcome where
  | success (addr : String)
  | contractLogicError
deriving DecidableEq, Repr

/-- Exceptions that escape the resolver: an uncaught
`ContractLogicError`, or the `assert False` of `_switch_network`. -/
inductive ResolveError where
  | contractLogicError
  | unsupportedNetwork (network : String)
deriving DecidableEq, Repr

/-- Oracles for the chain collaborators, each taking the network and a
contract address.  `explorerAbi` returns `none` exactly when the
explorer answers `"Contract source code not verified"`; `storageAt`
returns the storage word at a slot as an integer. -/
structure ChainEnv where
  explorerAbi : String → String → Option Abi
  ownerOfCall : String → String → CallOutcome
  totalSupplyCall : String → String → CallOutcome
  implementationCall : String → String → ImplCallOutcome
  storageAt : String → String → Nat → Int

/-- The fallback non-fungible (ERC-721) interface loaded from
`ERC721-ABI.json`.  The JSON files are not under `src/`; only the
identity of this table matters to the claims, so a representative
fragment stands in for the full standard interface. -/
def ERC721_ABI : Abi :=
  [("0x6352211e", "ownerOf"), ("0x70a08231", "balanceOf"), ("0x095ea7b3", "approve")]

/-- The fallback fungible (ERC-20) interface loaded from
`ERC20-ABI.json` (same caveat as `ERC721_ABI`). -/
def ERC20_ABI : Abi :=
  [("0x18160ddd", "totalSupply"), ("0xa9059cbb", "transfer"), ("0x095ea7b3", "approve")]

/-- The networks configured in `config.WEB3_BY_NETWORK`;
`_switch_network` fails on any other identifier. -/
def WEB3_BY_NETWORK : List String := ["AVAX", "ETHE"]

/-- `ContractStorage.guess_abi` (lines 52–81): probe `ownerOf(0)` — a
function that exists only on ERC-721; success or a logic revert confirms
ERC-721, a `BadFunctionCallOutput` rejects it.  Then probe
`totalSupply()`: success confirms ERC-20, `BadFunctionCallOutput` leaves
the contract with no ABI, and a `ContractLogicError` is *not* caught
there and escapes. -/
def guess_abi (env : ChainEnv) (network contract_address : String) :
    Except ResolveError Contract :=
  match env.ownerOfCall network contract_address with
  | .success => .ok ⟨contract_address, some ERC721_ABI⟩
  | .contractLogicError => .ok ⟨contract_address, some ERC721_ABI⟩
  | .badFunctionCallOutput =>
      match env.totalSupplyCall network contract_address with
      | .success => .ok ⟨contract_address, some ERC20_ABI⟩
      | .badFunctionCallOutput => .ok ⟨contract_address, none⟩
      | .contractLogicError => .error .contractLogicError

/-- `ContractStorage._get_contract` (lines 82–95): ask the explorer for
a verified ABI; on the "not verified" sentinel, fall back to
`guess_abi`. -/
def _get_contract (env : ChainEnv) (network contract_address : String) :
    Except ResolveError Contract :=
  match env.explorerAbi network contract_address with
  | some a => .ok ⟨contract_address, some a⟩
  | none => guess_abi env network contract_address

/-- The ERC-1967 implementation slot,
`keccak("eip1967.proxy.implementation") − 1`. -/
def IMPL_SLOT_EIP1967 : Nat :=
  0x360894a13ba1a3210667c828492db98dca3e2076cc3735a920a3ca505d382bbc

/-- The zeppelinos implementation slot,
`keccak("org.zeppelinos.proxy.implementation")`. -/
def IMPL_SLOT_ZEPPELIN : Nat :=
  0x7050c9e0f4ca769c69bd3a8ef740bc37934f8e2c036e5a723fd8ee048ed3f8c3

/-- The fixed, ordered list `potential_impl_slots` of lines 119–126. -/
def potential_impl_slots : List Nat := [IMPL_SLOT_EIP1967, IMPL_SLOT_ZEPPELIN]

/-- `Web3.toChecksumAddress(Web3.toInt(storage_word))`: an injective
rendering of a storage word as an address string (the exact checksum
formatting of the external library is irrelevant to the claims). -/
def toChecksumAddress (n : Int) : String := "0x" ++ toString n

/-- `ContractStorage._get_impl_contract_for_proxy` (lines 97–138): try
the `implementation()` accessor; on success resolve the returned
address.  On a `ContractLogicError` (admin-only accessor), scan the
standardized slots in order and resolve the first non-zero word as the
implementation address; if every slot is zero, return the proxy's own
contract. -/
def _get_impl_contract_for_proxy (env : ChainEnv) (network : String) (contract : Contract) :
    Except ResolveError Contract :=
  match env.implementationCall network contract.address with
  | .success impl_addr => _get_contract env network impl_addr
  | .contractLogicError =>
      match potential_impl_slots.find?
          (fun slot => env.storageAt network contract.address slot != 0) with
      | none => .ok contract
      | some slot =>
          _get_contract env network
            (toChecksumAddress (env.storageAt network contract.address slot))

/-- `contract.find_functions_by_name(name)`: the ABI entries carrying
the given function name. -/
def find_functions_by_name (a : Abi) (name : String) : Abi :=
  a.filter (fun p => p.2 == name)

/-- Python truthiness of `contract.abi` (`None` and the empty table are
falsy). -/
def abiTruthy : Option Abi → Bool
  | none => false
  | some [] => false
  | some (_ :: _) => true

/-- The test of line 155: `contract.abi and
contract.find_functions_by_name("implementation")`. -/
def isPotentialProxy (c : Contract) : Bool :=
  abiTruthy c.abi && !(find_functions_by_name (c.abi.getD []) "implementation").isEmpty

/-- The in-memory class state of `ContractStorage`: the `cache` dict
(keyed by the *address alone*, insertion order preserved) plus an
instrumentation counter of how many times the non-cache resolution path
(`_get_contract`) ran. -/
structure Store where
  cache : List (String × Contract)
  resolutions : Nat
deriving DecidableEq, Repr

/-- `ContractStorage.get_contract` (lines 140–164): switch network
(asserting it is configured), return the cached contract if the address
is present; otherwise resolve it, unwrap a potential proxy, store the
result under the address, and return it.  The on-disk ABI dump of lines
159–161 is I/O and not modelled. -/
def get_contract (env : ChainEnv) (store : Store) (contract_address network : String) :
    Except ResolveError (Contract × Store) :=
  if network ∈ WEB3_BY_NETWORK then
    match (store.cache.find? (fun p => p.1 == contract_address)).map Prod.snd with
    | some c => .ok (c, store)
    | none =>
        match _get_contract env network contract_address with
        | .error e => .error e
        | .ok c0 =>
            match (if isPotentialProxy c0 then _get_impl_contract_for_proxy env network c0
                   else .ok c0) with
            | .error e => .error e
            | .ok c =>
                .ok (c, ⟨store.cache ++ [(contract_address, c)], store.resolutions + 1⟩)
  else .error (.unsupportedNetwork network)

/-- `ContractStorage.get_fn_name` (lines 166–178): with a known ABI,
look the selector up (`get_function_by_selector`); the bare `except`
turns any lookup failure into the selector itself, and without an ABI
the selector is returned unchanged.  Total by construction: no input
raises. -/
def get_fn_name (contract : Contract) (fn_selector : String) : String :=
  match contract.abi with
  | some a =>
      match (a.find? (fun p => p.1 == fn_selector)).map Prod.snd with
      | some name => name
      | none => fn_selector
  | none => fn_selector

/-- **C8.**  `get_fn_name` returns the looked-up function name when the
descriptor's interface is known and contains the selector, and otherwise
returns the selector unchanged; it is total — for every contract and
selector it produces a string and never raises (the Python bare
`except:` swallows every lookup failure). -/
theorem get_fn_name_spec (contract : Contract) (fn_selector : String) :
    (contract.abi = none → get_fn_name contract fn_selector = fn_selector) ∧
    (∀ a, contract.abi = some a →
      ((∃ nm, (a.find? (fun p => p.1 == fn_selector)).map Prod.snd = some nm ∧
          get_fn_name contract fn_selector = nm) ∨
        ((a.find? (fun p => p.1 == fn_selector)).map Prod.snd = none ∧
          get_fn_name contract fn_selector = fn_selector))) := by
  constructor
  · intro h
    simp [get_fn_name, h]
  · intro a ha
    cases hf : (a.find? (fun p => p.1 == fn_selector)).map Prod.snd with
    | some nm => exact Or.inl ⟨nm, rfl, by simp [get_fn_name, ha, hf]⟩
    | none => exact Or.inr ⟨rfl, by simp [get_fn_name, ha, hf]⟩

/-- Witness for `get_fn_name_spec`: a descriptor with no known interface
maps any selector to itself. -/
theorem get_fn_name_spec_witness :
    get_fn_name ⟨"0xa", none⟩ "0x12345678" = "0x12345678" :=
  (get_fn_name_spec ⟨"0xa", none⟩ "0x12345678").1 rfl

/-- An environment where the explorer reports the contract unverified,
the `ownerOf` probe answers "function absent", and the `totalSupply`
probe reverts with business logic (`ContractLogicError`). -/
def guessEnvLogicRevert : ChainEnv :=
  { explorerAbi := fun _ _ => none,
    ownerOfCall := fun _ _ => .badFunctionCallOutput,
    totalSupplyCall := fun _ _ => .contractLogicError,
    implementationCall := fun _ _ => .contractLogicError,
    storageAt := fun _ _ _ => 0 }

/-- **C6, counterexample.**  The fungible probe is *not* handled
"similarly" to the non-fungible one: a business-logic revert on
`totalSupply` proves the function exists, yet `guess_abi` does not adopt
the ERC-20 interface — the `ContractLogicError` is uncaught there, so
resolution of the unverified contract `"0xc"` errors out instead of
returning any descriptor. -/
theorem guess_abi_totalSupply_revert_escapes :
    guess_abi guessEnvLogicRevert "ETHE" "0xc" = .error .contractLogicError ∧
    _get_contract guessEnvLogicRevert "ETHE" "0xc" = .error .contractLogicError :=
  ⟨rfl, rfl⟩

/-- **C6 (amended).**  When the explorer reports a contract unverified,
resolution falls back to interface guessing.  The `ownerOf` probe works
as claimed: success *or* an authorization/business-logic revert adopts
the non-fungible fallback interface, while a missing-function failure
rejects it.  The `totalSupply` probe is similar only for success
(adopting ERC-20) and missing-function failure (descriptor with no known
interface): a business-logic revert on `totalSupply` is not caught and
aborts resolution instead of confirming ERC-20. -/
theorem guess_abi_spec (env : ChainEnv) (network addr : String)
    (hunv : env.explorerAbi network addr = none) :
    _get_contract env network addr = guess_abi env network addr ∧
    ((env.ownerOfCall network addr = .success ∨
        env.ownerOfCall network addr = .contractLogicError) →
      guess_abi env network addr = .ok ⟨addr, some ERC721_ABI⟩) ∧
    (env.ownerOfCall network addr = .badFunctionCallOutput →
      ((env.totalSupplyCall network addr = .success →
          guess_abi env network addr = .ok ⟨addr, some ERC20_ABI⟩) ∧
        (env.totalSupplyCall network addr = .badFunctionCallOutput →
          guess_abi env network addr = .ok ⟨addr, none⟩) ∧
        (env.totalSupplyCall network addr = .contractLogicError →
          guess_abi env network addr = .error .contractLogicError))) := by
  refine ⟨by simp [_get_contract, hunv], ?_, ?_⟩
  · rintro (h | h) <;> simp [guess_abi, h]
  · intro h
    exact ⟨fun h2 => by simp [guess_abi, h, h2], fun h2 => by simp [guess_abi, h, h2],
      fun h2 => by simp [guess_abi, h, h2]⟩

/-- An environment where the explorer reports everything unverified and
the `ownerOf` probe reverts with business logic. -/
def guessEnvNft : ChainEnv :=
  { explorerAbi := fun _ _ => none,
    ownerOfCall := fun _ _ => .contractLogicError,
    totalSupplyCall := fun _ _ => .badFunctionCallOutput,
    implementationCall := fun _ _ => .contractLogicError,
    storageAt := fun _ _ _ => 0 }

/-- Witness for `guess_abi_spec`: unverified contract whose non-fungible
probe reverts on authorization — the ERC-721 fallback is adopted. -/
theorem guess_abi_spec_witness :
    guess_abi guessEnvNft "ETHE" "0xn" = .ok ⟨"0xn", some ERC721_ABI⟩ :=
  (guess_abi_spec guessEnvNft "ETHE" "0xn" rfl).2.1 (Or.inr rfl)

/-- **C5.**  Proxy unwrap.  (a) On a cache miss, when the freshly
resolved contract's interface exposes an `implementation` accessor,
`get_contract` substitutes the unwrap result for the proxy's own
descriptor (and caches/returns it).  (b) When the accessor call
succeeds, the implementation address it returns is resolved.  (c) When
the accessor reverts with access control (`ContractLogicError`), raw
storage is read at the fixed ordered slot list: if every standardized
slot is zero the original descriptor is retained, and otherwise the
first slot in order with a non-zero word gives the implementation
address, whose resolved descriptor is returned — so the caller receives
the implementation's interface, never the empty proxy shell. -/
theorem proxy_unwrap_spec (env : ChainEnv) (network : String) :
    (∀ (store : Store) (addr : String) (c ci : Contract),
        network ∈ WEB3_BY_NETWORK →
        (store.cache.find? (fun p => p.1 == addr)).map Prod.snd = none →
        _get_contract env network addr = .ok c →
        isPotentialProxy c = true →
        _get_impl_contract_for_proxy env network c = .ok ci →
        get_contract env store addr network =
          .ok (ci, ⟨store.cache ++ [(addr, ci)], store.resolutions + 1⟩)) ∧
    (∀ (c : Contract) (a : String),
        env.implementationCall network c.address = .success a →
        _get_impl_contract_for_proxy env network c = _get_contract env network a) ∧
    (∀ c : Contract,
        env.implementationCall network c.address = .contractLogicError →
        ((∀ slot ∈ potential_impl_slots, env.storageAt network c.address slot = 0) →
          _get_impl_contract_for_proxy env network c = .ok c) ∧
        (env.storageAt network c.address IMPL_SLOT_EIP1967 ≠ 0 →
          _get_impl_contract_for_proxy env network c =
            _get_contract env network
              (toChecksumAddress (env.storageAt network c.address IMPL_SLOT_EIP1967))) ∧
        (env.storageAt network c.address IMPL_SLOT_EIP1967 = 0 →
          env.storageAt network c.address IMPL_SLOT_ZEPPELIN ≠ 0 →
          _get_impl_contract_for_proxy env network c =
            _get_contract env network
              (toChecksumAddress (env.storageAt network c.address IMPL_SLOT_ZEPPELIN)))) := by
  refine ⟨?_, ?_, ?_⟩
  · intro store addr c ci hn hmiss hres hproxy himpl
    simp [get_contract, hn, hmiss, hres, hproxy, himpl]
  · intro c a hcall
    simp [_get_impl_contract_for_proxy, hcall]
  · intro c hcall
    refine ⟨?_, ?_, ?_⟩
    · intro hzero
      have h1 := hzero IMPL_SLOT_EIP1967 (by simp [potential_impl_slots])
      have h2 := hzero IMPL_SLOT_ZEPPELIN (by simp [potential_impl_slots])
      simp [_get_impl_contract_for_proxy, hcall, potential_impl_slots, List.find?, h1, h2]
    · intro hnz
      have hb : (env.storageAt network c.address IMPL_SLOT_EIP1967 != 0) = true := by
        simpa using hnz
      simp [_get_impl_contract_for_proxy, hcall, potential_impl_slots, List.find?, hb]
    · intro hz hnz
      have hb1 : (env.storageAt network c.address IMPL_SLOT_EIP1967 != 0) = false := by
        simpa using hz
      have hb2 : (env.storageAt network c.address IMPL_SLOT_ZEPPELIN != 0) = true := by
        simpa using hnz
      simp [_get_impl_contract_for_proxy, hcall, potential_impl_slots, List.find?, hb1, hb2]

/-- An environment holding one proxy contract `"0xp"`: its verified ABI
exposes `implementation`, the accessor is admin-only (reverts), the
ERC-1967 slot is empty and the zeppelinos slot holds the word 77; every
other address resolves to a verified ERC-20 interface. -/
def proxyEnv : ChainEnv :=
  { explorerAbi := fun _ a =>
      if a = "0xp" then some [("0x5c60da1b", "implementation")] else some ERC20_ABI,
    ownerOfCall := fun _ _ => .badFunctionCallOutput,
    totalSupplyCall := fun _ _ => .success,
    implementationCall := fun _ _ => .contractLogicError,
    storageAt := fun _ a slot =>
      if a = "0xp" ∧ slot = IMPL_SLOT_ZEPPELIN then 77 else 0 }

/-- Witness for `proxy_unwrap_spec`: the proxy `"0xp"` with an admin-only
accessor and its implementation address only in the zeppelinos slot is
resolved to the implementation's descriptor. -/
theorem proxy_unwrap_spec_witness :
    _get_impl_contract_for_proxy proxyEnv "ETHE"
        ⟨"0xp", some [("0x5c60da1b", "implementation")]⟩ =
      _get_contract proxyEnv "ETHE"
        (toChecksumAddress (proxyEnv.storageAt "ETHE" "0xp" IMPL_SLOT_ZEPPELIN)) :=
  (((proxy_unwrap_spec proxyEnv "ETHE").2.2
      ⟨"0xp", some [("0x5c60da1b", "implementation")]⟩) rfl).2.2 (by decide) (by decide)

theorem find?_append_singleton {α : Type} (l : List (String × α)) (addr : String)
    (x : String × α) (h : l.find? (fun p => p.1 == addr) = none) (hx : x.1 = addr) :
    (l ++ [x]).find? (fun p => p.1 == addr) = some x := by
  induction l with
  | nil => simp [List.find?, hx]
  | cons a t ih =>
    rw [List.find?_cons] at h
    cases hpa : (a.1 == addr) with
    | true => simp [hpa] at h
    | false =>
      rw [hpa] at h
      rw [List.cons_append, List.find?_cons, hpa]
      exact ih h

/-- A cache hit: with the address present, `get_contract` returns the
cached descriptor and leaves the store untouched. -/
theorem get_contract_hit (env : ChainEnv) (store : Store)
    (contract_address network : String) (hn : network ∈ WEB3_BY_NETWORK) (c : Contract)
    (hc : (store.cache.find? (fun p => p.1 == contract_address)).map Prod.snd = some c) :
    get_contract env store contract_address network = .ok (c, store) := by
  unfold get_contract
  rw [if_pos hn]
  simp only [hc]

/-- **C3 (amended).**  The resolver cache keeps one descriptor per
*address* (shared across networks — see
`get_contract_cache_ignores_network`).  For a fixed supported network:
a cache hit returns the cached descriptor with the store untouched (no
resolution, hence no network access), and resolving the same
(address, network) twice yields the same descriptor and the same store,
with the second call performing no further underlying interface lookup —
at most one resolution happens across both calls. -/
theorem get_contract_cache_spec (env : ChainEnv) (store : Store)
    (contract_address network : String) (hn : network ∈ WEB3_BY_NETWORK) :
    (∀ c, (store.cache.find? (fun p => p.1 == contract_address)).map Prod.snd = some c →
        get_contract env store contract_address network = .ok (c, store)) ∧
    (∀ c1 s1, get_contract env store contract_address network = .ok (c1, s1) →
        get_contract env s1 contract_address network = .ok (c1, s1) ∧
        s1.resolutions ≤ store.resolutions + 1) := by
  constructor
  · intro c hc
    exact get_contract_hit env store contract_address network hn c hc
  · intro c1 s1 h1
    unfold get_contract at h1
    rw [if_pos hn] at h1
    cases hfind : (store.cache.find? (fun p => p.1 == contract_address)).map Prod.snd with
    | some c =>
      simp only [hfind, Except.ok.injEq, Prod.mk.injEq] at h1
      obtain ⟨hc, hs⟩ := h1
      subst hc
      subst hs
      exact ⟨get_contract_hit env store contract_address network hn c hfind, Nat.le_succ _⟩
    | none =>
      simp only [hfind] at h1
      cases hres : _get_contract env network contract_address with
      | error e => simp [hres] at h1
      | ok c0 =>
        simp only [hres] at h1
        cases himpl : (if isPotentialProxy c0 then
            _get_impl_contract_for_proxy env network c0 else .ok c0) with
        | error e => simp [himpl] at h1
        | ok c =>
          simp only [himpl, Except.ok.injEq, Prod.mk.injEq] at h1
          obtain ⟨hc, hs⟩ := h1
          subst hc
          have hfind0 : store.cache.find? (fun p => p.1 == contract_address) = none :=
            Option.map_eq_none'.mp hfind
          have hfind1 : ((store.cache ++ [(contract_address, c)]).find?
              (fun p => p.1 == contract_address)).map Prod.snd = some c := by
            rw [find?_append_singleton store.cache contract_address
              (contract_address, c) hfind0 rfl]
            rfl
          constructor
          · rw [← hs]
            exact get_contract_hit env ⟨store.cache ++ [(contract_address, c)],
              store.resolutions + 1⟩ contract_address network hn c hfind1
          · rw [← hs]

/-- An environment whose explorer answers differently on the two
networks: address `"0xa"` is verified with interface `avaxOnly` on AVAX
and with `etheOnly` on ETHE. -/
def crossNetEnv : ChainEnv :=
  { explorerAbi := fun network _ =>
      if network = "AVAX" then some [("0x01", "avaxOnly")] else some [("0x02", "etheOnly")],
    ownerOfCall := fun _ _ => .badFunctionCallOutput,
    totalSupplyCall := fun _ _ => .badFunctionCallOutput,
    implementationCall := fun _ _ => .contractLogicError,
    storageAt := fun _ _ _ => 0 }

/-- The descriptor `"0xa"` resolves to on AVAX under `crossNetEnv`. -/
def avaxContract : Contract := ⟨"0xa", some [("0x01", "avaxOnly")]⟩

/-- The descriptor `"0xa"` resolves to on ETHE under `crossNetEnv`. -/
def etheContract : Contract := ⟨"0xa", some [("0x02", "etheOnly")]⟩

/-- **C3, counterexample.**  The cache does not maintain one descriptor
per (address, network) key: it is keyed by the address alone.  After
resolving `"0xa"` on AVAX, resolving the same address on ETHE is served
the cached AVAX descriptor with no lookup, even though a fresh
resolution for (`"0xa"`, ETHE) produces a different descriptor. -/
theorem get_contract_cache_ignores_network :
    get_contract crossNetEnv ⟨[], 0⟩ "0xa" "AVAX" =
      .ok (avaxContract, ⟨[("0xa", avaxContract)], 1⟩) ∧
    get_contract crossNetEnv ⟨[("0xa", avaxContract)], 1⟩ "0xa" "ETHE" =
      .ok (avaxContract, ⟨[("0xa", avaxContract)], 1⟩) ∧
    get_contract crossNetEnv ⟨[], 0⟩ "0xa" "ETHE" =
      .ok (etheContract, ⟨[("0xa", etheContract)], 1⟩) ∧
    avaxContract ≠ etheContract :=
  ⟨rfl, rfl, rfl, by decide⟩

/-- Witness for `get_contract_cache_spec`: after resolving
(`"0xa"`, AVAX) once from the empty store, the second resolution returns
the same descriptor and store, and the two calls together performed one
resolution. -/
theorem get_contract_cache_spec_witness :
    get_contract crossNetEnv ⟨[("0xa", avaxContract)], 1⟩ "0xa" "AVAX" =
      .ok (avaxContract, ⟨[("0xa", avaxContract)], 1⟩) ∧
    (1 : Nat) ≤ 0 + 1 :=
  (get_contract_cache_spec crossNetEnv ⟨[], 0⟩ "0xa" "AVAX" (by decide)).2
    avaxContract ⟨[("0xa", avaxContract)], 1⟩ rfl

/-! ## Transfer construction and fetchers (`TokenTransfer.__init__`,
`TransactionOrganizer.get_*`) -/

/-- `TokenTransfer.__init__` (lines 85–101 of `main.py`): when
`token_decimals` is truthy the raw value is scaled down by
`10 ** token_decimals`, otherwise kept as is; the fee is
`gas_used * gas_price` wei converted to ether. -/
def TokenTransfer.make (from_addr to_addr : String) (value : ℚ)
    (gas_used gas_price : Nat) (network token_symbol : String)
    (token_decimals : Option Nat) (token_type : Option String)
    (timestamp : Int) (tx_hash : String) : TokenTransfer :=
  { from_addr := from_addr, to_addr := to_addr,
    value := match token_decimals with
      | some d => value / 10 ^ d
      | none => value,
    fees := ((gas_used * gas_price : Nat) : ℚ) / 10 ^ 18,
    network := network, token_symbol := token_symbol, token_type := token_type,
    timestamp := timestamp, tx_hash := tx_hash }

/-- `Web3.fromWei(n, "ether")`. -/
def fromWei (n : Nat) : ℚ := (n : ℚ) / 10 ^ 18

/-- The fields of `txn_details = self.web3.eth.get_transaction(txn.hash)`
used by step [3-B] of `TransactionOrganizer.extract`, together with the
`Transaction`'s own hash, gas and timestamp.  `value` is the attached
native value already converted to ether. -/
structure TxnInfo where
  hash : String
  from_addr : String
  to_addr : String
  value : ℚ
  gas_spent : Nat
  gas_price : Nat
  timestamp : Int
deriving DecidableEq, Repr

inductive Direction where
  | incoming
  | outgoing
deriving DecidableEq, Repr

/-- The native-token `TokenTransfer` record step [3-B] appends. -/
def native_record (network : String) (txn : TxnInfo) : TokenTransfer :=
  TokenTransfer.make txn.from_addr txn.to_addr txn.value txn.gas_spent txn.gas_price
    network network none (some "native") txn.timestamp txn.hash

/-- Step [3-B] of `TransactionOrganizer.extract` (lines 312–337):
for a non-zero attached native value, report an incoming transfer when
the wallet is the recipient, otherwise assert the wallet is the sender
and report an outgoing transfer; either way append the same native
transfer record.  Zero-value transactions fall through (`none`).
Address comparisons here are exact (`==`), not lowercased. -/
def handle_native_transfer (wallet network : String) (txn : TxnInfo) :
    Except String (Option (Direction × TokenTransfer)) :=
  if txn.value = 0 then .ok none
  else if wallet = txn.to_addr then .ok (some (.incoming, native_record network txn))
  else if wallet = txn.from_addr then .ok (some (.outgoing, native_record network txn))
  else .error "assert self.address == from_address"

/-- The wallet is exactly one of the transaction's two parties. -/
def exactlyOneParty (wallet sender recipient : String) : Prop :=
  (wallet = sender ∧ wallet ≠ recipient) ∨ (wallet = recipient ∧ wallet ≠ sender)

/-- A 1-ether self-send: sender and recipient both the wallet. -/
def selfTxn : TxnInfo := ⟨"h9", "0xw", "0xw", 1, 21000, 5, 0⟩

/-- **C7, counterexample.**  The classifier does not assert that the
wallet is *exactly one* of {sender, recipient}: on a self-send, where
the wallet is both parties (so not exactly one), classification
nevertheless succeeds and reports an incoming native transfer — the
code only asserts the wallet is the sender after the recipient check
fails. -/
theorem handle_native_transfer_accepts_both_parties :
    ¬ exactlyOneParty "0xw" "0xw" "0xw" ∧
    handle_native_transfer "0xw" "ETHE" selfTxn =
      .ok (some (.incoming, native_record "ETHE" selfTxn)) :=
  ⟨by simp [exactlyOneParty], rfl⟩

/-- **C7 (amended).**  For every top-level transaction with non-zero
attached native value the classifier reports a native transfer:
incoming when the wallet is the recipient (checked first), outgoing
when the wallet is not the recipient but is the sender, and an
assertion failure when the wallet is neither party.  The wallet is thus
asserted to be *at least* one of the two parties, with the recipient
check taking priority — not exactly one
(`handle_native_transfer_accepts_both_parties`). -/
theorem handle_native_transfer_spec (wallet network : String) (txn : TxnInfo)
    (hv : txn.value ≠ 0) :
    (wallet = txn.to_addr →
      handle_native_transfer wallet network txn =
        .ok (some (.incoming, native_record network txn))) ∧
    (wallet ≠ txn.to_addr → wallet = txn.from_addr →
      handle_native_transfer wallet network txn =
        .ok (some (.outgoing, native_record network txn))) ∧
    (wallet ≠ txn.to_addr → wallet ≠ txn.from_addr →
      handle_native_transfer wallet network txn =
        .error "assert self.address == from_address") := by
  refine ⟨?_, ?_, ?_⟩
  · intro h1
    unfold handle_native_transfer
    rw [if_neg hv, if_pos h1]
  · intro h1 h2
    unfold handle_native_transfer
    rw [if_neg hv, if_neg h1, if_pos h2]
  · intro h1 h2
    unfold handle_native_transfer
    rw [if_neg hv, if_neg h1, if_neg h2]

/-- A 2-ether deposit from a third party to the wallet. -/
def inTxn : TxnInfo := ⟨"h8", "0xy", "0xw", 2, 21000, 5, 3⟩

/-- Witness for `handle_native_transfer_spec`: a non-zero native deposit
to the wallet classifies as an incoming native transfer. -/
theorem handle_native_transfer_spec_witness :
    handle_native_transfer "0xw" "ETHE" inTxn =
      .ok (some (.incoming, native_record "ETHE" inTxn)) :=
  (handle_native_transfer_spec "0xw" "ETHE" inTxn (by decide)).1 rfl

/-- One raw Covalent transaction item, with the fields
`Transaction.parse_covalent_tx` reads (`log_events`, an opaque JSON
array, is not modelled); `block_signed_at` is the parsed timestamp. -/
structure CovalentTx where
  tx_hash : String
  successful : Bool
  from_address : String
  from_address_label : Option String
  to_address : String
  to_address_label : Option String
  fees_paid : Nat
  gas_spent : Nat
  block_signed_at : Int
deriving DecidableEq, Repr

/-- The `Transaction` object (lines 103–125 of `main.py`). -/
structure Transaction where
  hash : String
  from_covalent : Bool
  successful : Bool
  from_addr : String
  from_addr_label : Option String
  to_addr : String
  to_addr_label : Option String
  fees_paid : Nat
  gas_spent : Nat
  timestamp : Int
deriving DecidableEq, Repr

/-- `Transaction.parse_covalent_tx`. -/
def Transaction.parse_covalent_tx (t : CovalentTx) : Transaction :=
  ⟨t.tx_hash, true, t.successful, t.from_address, t.from_address_label,
    t.to_address, t.to_address_label, t.fees_paid, t.gas_spent, t.block_signed_at⟩

/-- One page of the Covalent transaction listing together with its
pagination flag `res["pagination"]["has_more"]`. -/
structure CovalentResponse where
  items : List CovalentTx
  has_more : Bool
deriving DecidableEq, Repr

/-- The `AssertionError` of `assert not res["pagination"]["has_more"]`,
the spec's `IncompleteData`. -/
inductive FetchError where
  | incompleteData
deriving DecidableEq, Repr

/-- `TransactionOrganizer.get_transactions` (lines 170–185): abort when
the provider signals more data beyond the page, else parse the items and
reverse them into earliest-first order. -/
def get_transactions (resp : CovalentResponse) : Except FetchError (List Transaction) :=
  if resp.has_more then .error .incompleteData
  else .ok ((resp.items.map Transaction.parse_covalent_tx).reverse)

/-- One raw token-transfer event row of the snowtrace/etherscan
listings, with the fields the fetchers read. -/
structure EtherscanTokenTx where
  from_addr : String
  to_addr : String
  value : Nat
  gasUsed : Nat
  gasPrice : Nat
  tokenSymbol : String
  tokenDecimal : Option Nat
  timeStamp : Int
  hash : String
deriving DecidableEq, Repr

/-- One page of a snowtrace/etherscan listing plus a provider-side
signal that more data exists beyond this page; the code reads only
`result` and never consults the signal. -/
structure EtherscanResponse where
  result : List EtherscanTokenTx
  has_more : Bool
deriving DecidableEq, Repr

/-- `TransactionOrganizer.get_erc20_transfers` (lines 187–211). -/
def get_erc20_transfers (network : String) (resp : EtherscanResponse) :
    List TokenTransfer :=
  resp.result.map (fun t =>
    TokenTransfer.make t.from_addr t.to_addr t.value t.gasUsed t.gasPrice
      network t.tokenSymbol t.tokenDecimal (some "ERC20") t.timeStamp t.hash)

/-- `TransactionOrganizer.get_erc721_transfers` (lines 213–237): unit
value 1. -/
def get_erc721_transfers (network : String) (resp : EtherscanResponse) :
    List TokenTransfer :=
  resp.result.map (fun t =>
    TokenTransfer.make t.from_addr t.to_addr 1 t.gasUsed t.gasPrice
      network t.tokenSymbol t.tokenDecimal (some "ERC721") t.timeStamp t.hash)

/-- One raw internal-transaction row (no token fields). -/
structure EtherscanInternalTx where
  from_addr : String
  to_addr : String
  value : Nat
  timeStamp : Int
  hash : String
deriving DecidableEq, Repr

structure EtherscanInternalResponse where
  result : List EtherscanInternalTx
  has_more : Bool
deriving DecidableEq, Repr

/-- `TransactionOrganizer.get_internal_transactions` (lines 239–265):
native-token transfers under the parent transaction's hash, zero gas. -/
def get_internal_transactions (network : String) (resp : EtherscanInternalResponse) :
    List TokenTransfer :=
  resp.result.map (fun t =>
    TokenTransfer.make t.from_addr t.to_addr (fromWei t.value) 0 0
      network network none (some "native") t.timeStamp t.hash)

/-- A single-row token-transfer page which the provider marks as
truncated (more data exists beyond it). -/
def truncatedPage : EtherscanResponse :=
  ⟨[⟨"0xy", "0xw", 10000, 21000, 5, "USDC", some 2, 7, "h5"⟩], true⟩

/-- **C9, counterexample.**  The fungible-transfer fetch does not fail
loudly when the provider signals more data: on a page flagged
`has_more`, `get_erc20_transfers` silently returns the truncated list
(its type cannot even fail).  Only the top-level transaction fetch
checks the flag and raises `IncompleteData`. -/
theorem get_erc20_transfers_ignores_pagination :
    get_erc20_transfers "ETHE" truncatedPage =
      [TokenTransfer.make "0xy" "0xw" 10000 21000 5 "ETHE" "USDC" (some 2)
        (some "ERC20") 7 "h5"] ∧
    get_transactions ⟨[], true⟩ = .error .incompleteData :=
  ⟨rfl, rfl⟩

/-- **C9 (amended).**  Of the four fetch operations, only the top-level
transaction fetch consults the provider's pagination signal:
`get_transactions` succeeds iff the signal is off (failing with
`IncompleteData` otherwise), while the fungible, non-fungible and
internal transfer fetches return the same parsed page whether or not
the provider reports more data — an over-long history is silently
truncated rather than failing loudly. -/
theorem fetch_pagination_spec (network : String) :
    (∀ resp : CovalentResponse,
        (∃ items, get_transactions resp = .ok items) ↔ resp.has_more = false) ∧
    (∀ rs : List EtherscanTokenTx,
        get_erc20_transfers network ⟨rs, true⟩ = get_erc20_transfers network ⟨rs, false⟩) ∧
    (∀ rs : List EtherscanTokenTx,
        get_erc721_transfers network ⟨rs, true⟩ = get_erc721_transfers network ⟨rs, false⟩) ∧
    (∀ rs : List EtherscanInternalTx,
        get_internal_transactions network ⟨rs, true⟩ =
          get_internal_transactions network ⟨rs, false⟩) := by
  refine ⟨?_, fun rs => rfl, fun rs => rfl, fun rs => rfl⟩
  intro resp
  cases hb : resp.has_more with
  | true => simp [get_transactions, hb]
  | false => simp [get_transactions, hb]
